import Mathlib

/-!
Shallow embedding of the `ProcessManager` class of process-manager-mcp
(src/process-manager.ts).  The persisted `Conf` store is modelled as an
association list from working-directory strings to partitions, where a
partition is an association list from process keys to records.  The OS is
modelled by explicit oracles: `alive pid` is the outcome of the liveness
probe `process.kill(pid, 0)` (true = no exception), and `killOk pid` is the
outcome of `process.kill(pid, "SIGTERM")` on an untracked pid.
-/

namespace PM

/-- Process status: `"running" | "stopped" | "crashed"`. -/
inductive ProcessStatus where
  | running
  | stopped
  | crashed
deriving DecidableEq, Repr

/-- The `ProcessData` interface of process-manager.ts. -/
structure ProcessData where
  pid : Nat
  command : String
  cwd : String
  status : ProcessStatus
  startTime : Nat
  autoShutdown : Bool
  logFile : Option String
  errorOutput : Option String
deriving DecidableEq, Repr

/-- A partition of the store: processKey → ProcessData, as an assoc list. -/
abbrev Partition := List (String × ProcessData)

/-- The persisted store: cwd → partition, as an assoc list. -/
abbrev Store := List (String × Partition)

/-- First-match association-list lookup (JS object property read). -/
def lookupKey {α : Type} : List (String × α) → String → Option α
  | [], _ => none
  | (k1, v) :: rest, k => if k1 = k then some v else lookupKey rest k

/-- JS `delete obj[k]`: remove the binding for `k`. -/
def delKey {α : Type} (l : List (String × α)) (k : String) : List (String × α) :=
  l.filter (fun kv => kv.1 ≠ k)

/-- JS `obj[k] = v`: replace in place when present, else append. -/
def putKey {α : Type} (l : List (String × α)) (k : String) (v : α) : List (String × α) :=
  if l.any (fun kv => kv.1 = k) then
    l.map (fun kv => if kv.1 = k then (k, v) else kv)
  else
    l ++ [(k, v)]

/-- `this.config.get(cwd, {})`. -/
def getPartition (s : Store) (c : String) : Partition :=
  (lookupKey s c).getD []

theorem lookupKey_isSome_iff_any {α : Type} (l : List (String × α)) (k : String) :
    (lookupKey l k).isSome = l.any (fun kv => kv.1 = k) := by
  induction l with
  | nil => rfl
  | cons kv rest ih =>
    by_cases hk : kv.1 = k
    · simp [lookupKey, hk]
    · simp [lookupKey, hk, ih]

theorem lookupKey_append_left {α : Type} (l1 l2 : List (String × α)) (q : String)
    (h : lookupKey l1 q = none) : lookupKey (l1 ++ l2) q = lookupKey l2 q := by
  induction l1 with
  | nil => rfl
  | cons kv rest ih =>
    by_cases hk : kv.1 = q
    · simp [lookupKey, hk] at h
    · simp only [lookupKey, hk, if_false] at h ⊢
      simpa [lookupKey, hk] using ih h

theorem lookupKey_map_replace_hit {α : Type} (l : List (String × α)) (k : String) (v : α)
    (h : l.any (fun kv => kv.1 = k) = true) :
    lookupKey (l.map (fun kv => if kv.1 = k then (k, v) else kv)) k = some v := by
  induction l with
  | nil => simp at h
  | cons kv rest ih =>
    simp only [List.map_cons]
    by_cases hk : kv.1 = k
    · rw [if_pos hk]
      simp [lookupKey]
    · rw [if_neg hk]
      simp only [List.any_cons, Bool.or_eq_true, decide_eq_true_eq] at h
      rcases h with h | h
      · exact absurd h hk
      · simpa [lookupKey, hk] using ih h

theorem lookupKey_map_replace_other {α : Type} (l : List (String × α)) (k q : String) (v : α)
    (hq : q ≠ k) :
    lookupKey (l.map (fun kv => if kv.1 = k then (k, v) else kv)) q = lookupKey l q := by
  induction l with
  | nil => rfl
  | cons kv rest ih =>
    simp only [List.map_cons]
    by_cases hk : kv.1 = k
    · rw [if_pos hk]
      have h1 : k ≠ q := fun h => hq h.symm
      have h2 : kv.1 ≠ q := by rw [hk]; exact h1
      simp only [lookupKey, h1, h2, if_false]
      exact ih
    · rw [if_neg hk]
      by_cases hkq : kv.1 = q
      · simp [lookupKey, hkq]
      · simpa [lookupKey, hkq] using ih

theorem lookupKey_putKey_self {α : Type} (l : List (String × α)) (k : String) (v : α) :
    lookupKey (putKey l k v) k = some v := by
  unfold putKey
  split
  · exact lookupKey_map_replace_hit l k v (by assumption)
  · rename_i h
    have hnone : lookupKey l k = none := by
      have := lookupKey_isSome_iff_any l k
      rw [Bool.eq_false_iff.mpr h] at this
      exact Option.not_isSome_iff_eq_none.mp (by simp [this])
    rw [lookupKey_append_left l [(k, v)] k hnone]
    simp [lookupKey]

theorem lookupKey_putKey_other {α : Type} (l : List (String × α)) (k q : String) (v : α)
    (hq : q ≠ k) : lookupKey (putKey l k v) q = lookupKey l q := by
  unfold putKey
  split
  · exact lookupKey_map_replace_other l k q v hq
  · clear * - hq
    induction l with
    | nil => simp [lookupKey, Ne.symm hq]
    | cons kv rest ih =>
      by_cases hkq : kv.1 = q
      · simp [lookupKey, hkq]
      · simpa [lookupKey, hkq] using ih

theorem lookupKey_delKey_self {α : Type} (l : List (String × α)) (k : String) :
    lookupKey (delKey l k) k = none := by
  induction l with
  | nil => rfl
  | cons kv rest ih =>
    by_cases hk : kv.1 = k
    · simpa [delKey, List.filter_cons, hk] using ih
    · simp only [delKey, List.filter_cons] at ih ⊢
      have : (decide (kv.1 ≠ k)) = true := by simp [hk]
      rw [this]
      simpa [lookupKey, hk] using ih

theorem lookupKey_delKey_other {α : Type} (l : List (String × α)) (k q : String)
    (hq : q ≠ k) : lookupKey (delKey l k) q = lookupKey l q := by
  induction l with
  | nil => rfl
  | cons kv rest ih =>
    simp only [delKey, List.filter_cons] at ih ⊢
    by_cases hk : kv.1 = k
    · have h2 : kv.1 ≠ q := by rw [hk]; exact Ne.symm hq
      have : (decide (kv.1 ≠ k)) = false := by simp [hk]
      rw [this]
      simpa [lookupKey, h2] using ih
    · have : (decide (kv.1 ≠ k)) = true := by simp [hk]
      rw [this]
      by_cases hkq : kv.1 = q
      · simp [lookupKey, hkq]
      · simpa [lookupKey, hkq] using ih

theorem lookupKey_eq_some_of_mem_nodup {α : Type} {l : List (String × α)} {k : String} {v : α}
    (hnd : (l.map Prod.fst).Nodup) (hmem : (k, v) ∈ l) : lookupKey l k = some v := by
  induction l with
  | nil => cases hmem
  | cons kv rest ih =>
    simp only [List.map_cons, List.nodup_cons] at hnd
    rcases List.mem_cons.mp hmem with h | h
    · simp [lookupKey, ← h]
    · have hk : kv.1 ≠ k := by
        intro hkk
        exact hnd.1 (hkk ▸ (List.mem_map.mpr ⟨(k, v), h, rfl⟩))
      simp [lookupKey, hk, ih hnd.2 h]

theorem mem_of_lookupKey_eq_some {α : Type} {l : List (String × α)} {k : String} {v : α}
    (h : lookupKey l k = some v) : (k, v) ∈ l := by
  induction l with
  | nil => cases h
  | cons kv rest ih =>
    by_cases hk : kv.1 = k
    · simp only [lookupKey, hk, if_true, Option.some.injEq] at h
      exact List.mem_cons.mpr (Or.inl (by rcases kv with ⟨a, b⟩; simp_all))
    · simp only [lookupKey, hk, if_false] at h
      exact List.mem_cons.mpr (Or.inr (ih h))

theorem getPartition_putKey_self (s : Store) (c : String) (p : Partition) :
    getPartition (putKey s c p) c = p := by
  simp [getPartition, lookupKey_putKey_self]

theorem getPartition_putKey_other (s : Store) (c q : String) (p : Partition) (hq : q ≠ c) :
    getPartition (putKey s c p) q = getPartition s q := by
  simp [getPartition, lookupKey_putKey_other _ _ _ _ hq]

/-- The mutable fields of a `ProcessManager` instance that the registry
operations read and write: the persisted `Conf` store, the pids present in
the in-memory `runningProcesses` map, and `this.currentCwd`. -/
structure ManagerState where
  store : Store
  runningProcesses : List Nat
  currentCwd : String
deriving DecidableEq, Repr

/-- Read a single record: `this.config.get(cwd, {})[key]`. -/
def lookupRecord (st : ManagerState) (c k : String) : Option ProcessData :=
  lookupKey (getPartition st.store c) k

/-- `this.runningProcesses.get(pid)` is defined (the pid is tracked). -/
def trackedPid (st : ManagerState) (pid : Nat) : Bool :=
  st.runningProcesses.any (fun q => q = pid)

/-- `ProcessManager.storeProcessData(processKey, data, cwd?)`:
`targetCwd = cwd || this.currentCwd`, then write the key and flush. -/
def storeProcessData (st : ManagerState) (k : String) (d : ProcessData)
    (cwd : Option String) : ManagerState :=
  let targetCwd := cwd.getD st.currentCwd
  let config := getPartition st.store targetCwd
  { st with store := putKey st.store targetCwd (putKey config k d) }

/-- `ProcessManager.updateProcessData(processKey, data, cwd?)`: writes the
key only when `config[processKey]` is already present (truthy). -/
def updateProcessData (st : ManagerState) (k : String) (d : ProcessData)
    (cwd : Option String) : ManagerState :=
  let targetCwd := cwd.getD st.currentCwd
  let config := getPartition st.store targetCwd
  if config.any (fun kv => kv.1 = k) then
    { st with store := putKey st.store targetCwd (putKey config k d) }
  else st

/-- `ProcessManager.removeProcessData(processKey, cwd?)`:
`delete config[processKey]` in the target partition, then flush. -/
def removeProcessData (st : ManagerState) (k : String) (cwd : Option String) :
    ManagerState :=
  let targetCwd := cwd.getD st.currentCwd
  let config := getPartition st.store targetCwd
  { st with store := putKey st.store targetCwd (delKey config k) }

/-- The search loop of `endProcess`: scan `this.config.store` partition by
partition, key by key, and return the first record whose `pid` matches,
together with its partition key and process key. -/
def findInPartition (p : Partition) (pid : Nat) : Option (String × ProcessData) :=
  match p with
  | [] => none
  | (k, d) :: rest => if d.pid = pid then some (k, d) else findInPartition rest pid

def findByPid (s : Store) (pid : Nat) : Option (String × String × ProcessData) :=
  match s with
  | [] => none
  | (c, p) :: rest =>
    match findInPartition p pid with
    | some (k, d) => some (c, k, d)
    | none => findByPid rest pid

/-- `ProcessManager.endProcess(pid)` (current variant, process-manager.ts).
`alive pid` models `process.kill(pid, 0)` not throwing; `killOk pid` models
`process.kill(pid, "SIGTERM")` not throwing on an untracked pid (the
in-memory `runningProcess.kill("SIGTERM")` path never throws).  Returns the
boolean result together with the state after the call. -/
def endProcess (alive killOk : Nat → Bool) (st : ManagerState) (pid : Nat) :
    Bool × ManagerState :=
  match findByPid st.store pid with
  | none => (false, st)
  | some (processCwd, processKey, processToKill) =>
    let processIsAlive := alive processToKill.pid
    let step :=
      if processIsAlive then
        if trackedPid st processToKill.pid then
          (true,
            { st with runningProcesses :=
                st.runningProcesses.filter (fun q => q ≠ processToKill.pid) })
        else
          (killOk processToKill.pid, st)
      else
        (false, st)
    let st2 := removeProcessData step.2 processKey (some processCwd)
    (step.1 || !processIsAlive, st2)

theorem findInPartition_mem {p : Partition} {pid : Nat} {k : String} {d : ProcessData}
    (h : findInPartition p pid = some (k, d)) : (k, d) ∈ p ∧ d.pid = pid := by
  induction p with
  | nil => cases h
  | cons kd1 rest1 ih1 =>
    rcases kd1 with ⟨k2, d2⟩
    simp only [findInPartition] at h
    by_cases hp : d2.pid = pid
    · rw [if_pos hp] at h
      simp only [Option.some.injEq, Prod.mk.injEq] at h
      obtain ⟨h1, h2⟩ := h
      subst h1 h2
      exact ⟨List.mem_cons_self _ _, hp⟩
    · rw [if_neg hp] at h
      obtain ⟨hm, hp2⟩ := ih1 h
      exact ⟨List.mem_cons_of_mem _ hm, hp2⟩

theorem findByPid_mem {s : Store} {pid : Nat} {c k : String} {d : ProcessData}
    (h : findByPid s pid = some (c, k, d)) :
    ∃ p, (c, p) ∈ s ∧ (k, d) ∈ p ∧ d.pid = pid := by
  induction s with
  | nil => cases h
  | cons cp rest ih =>
    rcases cp with ⟨c1, p1⟩
    simp only [findByPid] at h
    cases hfind : findInPartition p1 pid with
    | some kd =>
      rw [hfind] at h
      rcases kd with ⟨k1, d1⟩
      simp only [Option.some.injEq, Prod.mk.injEq] at h
      obtain ⟨hc, hk, hd⟩ := h
      subst hc hk hd
      obtain ⟨hm, hp⟩ := findInPartition_mem hfind
      exact ⟨p1, List.mem_cons_self _ _, hm, hp⟩
    | none =>
      rw [hfind] at h
      obtain ⟨p, hp, hrest⟩ := ih h
      exact ⟨p, List.mem_cons_of_mem _ hp, hrest⟩

theorem findInPartition_isSome {p : Partition} {pid : Nat} {k : String} {d : ProcessData}
    (hk : (k, d) ∈ p) (hpid : d.pid = pid) : (findInPartition p pid).isSome := by
  induction p with
  | nil => cases hk
  | cons kd rest ih =>
    rcases kd with ⟨k1, d1⟩
    simp only [findInPartition]
    by_cases hp : d1.pid = pid
    · simp [hp]
    · rw [if_neg hp]
      rcases List.mem_cons.mp hk with h | h
      · rw [Prod.mk.injEq] at h
        obtain ⟨h1, h2⟩ := h
        subst h2
        exact absurd hpid hp
      · exact ih h

theorem findByPid_isSome {s : Store} {pid : Nat} {c k : String} {d : ProcessData} {p : Partition}
    (hc : (c, p) ∈ s) (hk : (k, d) ∈ p) (hpid : d.pid = pid) :
    (findByPid s pid).isSome := by
  induction s with
  | nil => cases hc
  | cons cp rest ih =>
    rcases cp with ⟨c1, p1⟩
    simp only [findByPid]
    rcases List.mem_cons.mp hc with h | h
    · rw [Prod.mk.injEq] at h
      obtain ⟨h1, h2⟩ := h
      subst h1 h2
      have hs := findInPartition_isSome hk hpid
      cases hfind : findInPartition p pid with
      | some kd => rcases kd with ⟨k1, d1⟩; simp
      | none => rw [hfind] at hs; cases hs
    · cases hfind : findInPartition p1 pid with
      | some kd => rcases kd with ⟨k1, d1⟩; simp
      | none => exact ih h

/-- If exactly one record in the whole store carries `pid`, the search of
`endProcess` finds precisely that record. -/
theorem findByPid_unique {s : Store} {pid : Nat} {c k : String} {d : ProcessData} {p : Partition}
    (hc : (c, p) ∈ s) (hk : (k, d) ∈ p) (hpid : d.pid = pid)
    (huniq : ∀ c2 p2 k2 d2, (c2, p2) ∈ s → (k2, d2) ∈ p2 → d2.pid = pid →
      c2 = c ∧ k2 = k ∧ d2 = d) :
    findByPid s pid = some (c, k, d) := by
  have hsome := findByPid_isSome hc hk hpid
  cases hfind : findByPid s pid with
  | none => rw [hfind] at hsome; cases hsome
  | some r =>
    rcases r with ⟨c2, k2, d2⟩
    obtain ⟨p2, hp2, hk2, hpid2⟩ := findByPid_mem hfind
    obtain ⟨h1, h2, h3⟩ := huniq c2 p2 k2 d2 hp2 hk2 hpid2
    subst h1 h2 h3
    rfl

/-! ### Claim C1: return value of `endProcess` -/

/-- C1 (amended): `endProcess(pid)` returns false on an unknown pid; on a
known pid it returns true iff the process was already dead, or its handle
was still tracked in memory, or the direct SIGTERM kill did not throw.  In
particular it returns false when a record exists but its untracked process
is alive and the kill signal fails. -/
theorem endProcess_result_characterization (alive killOk : Nat → Bool)
    (st : ManagerState) (pid : Nat) :
    (endProcess alive killOk st pid).1 =
      (match findByPid st.store pid with
       | none => false
       | some (_, _, d) => !(alive d.pid) || trackedPid st d.pid || killOk d.pid) := by
  unfold endProcess
  cases h : findByPid st.store pid with
  | none => rfl
  | some r =>
    rcases r with ⟨c, k, d⟩
    by_cases ha : alive d.pid
    · by_cases ht : trackedPid st d.pid
      · simp [ha, ht]
      · simp [ha, ht]
    · simp [ha]

/-- A concrete record whose process is alive but untracked, with a failing
SIGTERM kill. -/
def c1Data : ProcessData :=
  { pid := 5, command := "sleep 100", cwd := "/a", status := ProcessStatus.running,
    startTime := 0, autoShutdown := false,
    logFile := some "/logs/process_5.log", errorOutput := none }

def c1State : ManagerState :=
  { store := [("/a", [("sleep 100_0", c1Data)])], runningProcesses := [],
    currentCwd := "/a" }

/-- C1 counterexample: a record with pid 5 exists, its process is alive and
untracked, and `process.kill(5, "SIGTERM")` throws — `endProcess(5)`
returns false even though a record existed, refuting "returns false only if
no record existed at all". -/
theorem endProcess_false_despite_record :
    (endProcess (fun _ => true) (fun _ => false) c1State 5).1 = false ∧
      findByPid c1State.store 5 = some ("/a", "sleep 100_0", c1Data) := by
  constructor
  · rfl
  · rfl

/-! ### Claim C2: `endProcess` deletes across partitions, unconditionally -/

/-- C2: if the store holds exactly one record with the given pid — in any
partition, not only the caller's — `endProcess` deletes exactly that
record, for every outcome of the liveness probe and of the kill signal,
and leaves every other record unchanged. -/
theorem endProcess_deletes_record (alive killOk : Nat → Bool) (st : ManagerState)
    (pid : Nat) (c k : String) (d : ProcessData) (p : Partition)
    (hc : (c, p) ∈ st.store) (hk : (k, d) ∈ p) (hpid : d.pid = pid)
    (huniq : ∀ c2 p2 k2 d2, (c2, p2) ∈ st.store → (k2, d2) ∈ p2 → d2.pid = pid →
      c2 = c ∧ k2 = k ∧ d2 = d) :
    lookupRecord (endProcess alive killOk st pid).2 c k = none ∧
      ∀ c2 k2, c2 ≠ c ∨ k2 ≠ k →
        lookupRecord (endProcess alive killOk st pid).2 c2 k2 = lookupRecord st c2 k2 := by
  have hfind := findByPid_unique hc hk hpid huniq
  have hstore : (endProcess alive killOk st pid).2.store =
      putKey st.store c (delKey (getPartition st.store c) k) := by
    unfold endProcess
    rw [hfind]
    by_cases ha : alive d.pid <;> by_cases ht : trackedPid st d.pid <;>
      simp [removeProcessData, ha, ht]
  constructor
  · rw [lookupRecord, hstore, getPartition_putKey_self, lookupKey_delKey_self]
  · intro c2 k2 hne
    rcases hne with hne | hne
    · rw [lookupRecord, hstore, getPartition_putKey_other _ _ _ _ hne, lookupRecord]
    · by_cases hcc : c2 = c
      · subst hcc
        rw [lookupRecord, hstore, getPartition_putKey_self,
          lookupKey_delKey_other _ _ _ hne, lookupRecord]
      · rw [lookupRecord, hstore, getPartition_putKey_other _ _ _ _ hcc, lookupRecord]

def c2DataA : ProcessData :=
  { pid := 3, command := "srv a", cwd := "/a", status := ProcessStatus.running,
    startTime := 0, autoShutdown := true,
    logFile := some "/logs/process_3.log", errorOutput := none }

def c2DataB : ProcessData :=
  { pid := 7, command := "srv b", cwd := "/b", status := ProcessStatus.running,
    startTime := 0, autoShutdown := false,
    logFile := some "/logs/process_7.log", errorOutput := none }

def c2State : ManagerState :=
  { store := [("/a", [("x", c2DataA)]), ("/b", [("y", c2DataB)])],
    runningProcesses := [], currentCwd := "/a" }

/-- C2 witness: pid 7 lives in partition "/b" while the caller's current
directory is "/a"; the process is alive and the kill fails, yet the record
is deleted and the record in "/a" is untouched. -/
theorem endProcess_deletes_record_witness :
    lookupRecord (endProcess (fun _ => true) (fun _ => false) c2State 7).2 "/b" "y" = none ∧
      lookupRecord (endProcess (fun _ => true) (fun _ => false) c2State 7).2 "/a" "x" =
        lookupRecord c2State "/a" "x" := by
  have h := endProcess_deletes_record (fun _ => true) (fun _ => false) c2State 7
    "/b" "y" c2DataB [("y", c2DataB)]
    (by simp [c2State])
    (by simp)
    (by rfl)
    (by
      intro c2 p2 k2 d2 h1 h2 h3
      simp only [c2State, List.mem_cons, List.not_mem_nil, or_false,
        Prod.mk.injEq] at h1
      rcases h1 with ⟨rfl, rfl⟩ | ⟨rfl, rfl⟩
      · simp only [List.mem_cons, List.not_mem_nil, or_false, Prod.mk.injEq] at h2
        obtain ⟨rfl, rfl⟩ := h2
        simp [c2DataA] at h3
      · simp only [List.mem_cons, List.not_mem_nil, or_false, Prod.mk.injEq] at h2
        obtain ⟨rfl, rfl⟩ := h2
        exact ⟨rfl, rfl, rfl⟩)
  exact ⟨h.1, h.2 "/a" "x" (Or.inl (by decide))⟩

/-! ### `startProcess` and its helpers -/

/-- JS `a || b` where `a` is a possibly-absent string: the empty string is
falsy. -/
def jsOr (a : Option String) (b : String) : String :=
  match a with
  | some s => if s = "" then b else s
  | none => b

/-- Boolean prefix test on character lists (JS `String.prototype.startsWith`
semantics once both strings are viewed as their character data). -/
def listIsPrefix : List Char → List Char → Bool
  | [], _ => true
  | _ :: _, [] => false
  | a :: as, b :: bs => a = b && listIsPrefix as bs

/-- JS `s.startsWith(p)`. -/
def strStartsWith (s p : String) : Bool :=
  listIsPrefix p.data s.data

/-- Split a character list on a single separator character; mirrors JS
`String.prototype.split` with a one-character separator (and Lean/Node
`split("/")` / `split("\n")` agree on this semantics). -/
def splitOnChar (sep : Char) : List Char → List (List Char)
  | [] => [[]]
  | c :: cs =>
    match splitOnChar sep cs with
    | [] => if c = sep then [[], [c]] else [[c]]
    | h :: t => if c = sep then [] :: h :: t else (c :: h) :: t

def strSplitOnChar (s : String) (sep : Char) : List String :=
  (splitOnChar sep s.data).map (fun l => ⟨l⟩)

/-- JS `Array.prototype.join(sep)`. -/
def joinSep (sep : String) : List String → String
  | [] => ""
  | [x] => x
  | x :: xs => x ++ sep ++ joinSep sep xs

/-- One step of POSIX path-segment normalization: empty and `.` segments
are dropped, `..` pops the last segment (bottoming out at the root). -/
def normSegStep (acc : List String) (seg : String) : List String :=
  if seg = "" || seg = "." then acc
  else if seg = ".." then acc.dropLast
  else acc ++ [seg]

/-- `path.resolve(base, p)` on POSIX, for an absolute `base` (the
supervisor's current directory always is): use `p` as-is when absolute,
otherwise join it to `base`, then normalize. -/
def pathResolve (base p : String) : String :=
  let full := if strStartsWith p "/" then p else base ++ "/" ++ p
  "/" ++ joinSep "/" ((strSplitOnChar full '/').foldl normSegStep [])

/-- `ProcessManager.getLogFilePath(pid)`:
`path.join(this.logDir, "process_<pid>.log")`. -/
def getLogFilePath (logDir : String) (pid : Nat) : String :=
  logDir ++ "/process_" ++ toString pid ++ ".log"

/-- The working-directory resolution at the top of `startProcess`:
`baseCwd = process.env.CWD || this.currentCwd` and
`workingDir = cwd ? path.resolve(baseCwd, cwd) : baseCwd`
(an empty-string `cwd` argument is falsy in JS). -/
def resolveWorkingDir (envCWD : Option String) (currentCwd : String)
    (cwdArg : Option String) : String :=
  let baseCwd := jsOr envCWD currentCwd
  match cwdArg with
  | some c => if c = "" then baseCwd else pathResolve baseCwd c
  | none => baseCwd

/-- `ProcessManager.startProcess(command, autoShutdown = true, cwd?, env?)`.

Registry and in-memory effects only; the OS is an oracle: `spawnPid` is the
pid produced by the `execa` spawn (`none` models both a throwing spawn and
`childProcess.pid` being undefined, the two paths that end in
`throw new Error("Failed to start process: ...")`); `keyTime` is the
`Date.now()` read by `generateProcessKey`, `tempTime` the `Date.now()` read
for the persistent branch's log-file name, `startTime` the `Date.now()`
stored in the record.  The npm/yarn/pnpm/npx `needsStdin` special case, the
log stream plumbing, `unref`, and the asynchronous exit/catch handlers
mutate no registry state during the call and are outside this model. -/
def startProcess (envCWD : Option String) (spawnPid : Option Nat)
    (keyTime tempTime startTime : Nat) (logDir : String) (st : ManagerState)
    (command : String) (autoShutdown : Bool) (cwdArg : Option String) :
    Except String Nat × ManagerState :=
  let processKey := command ++ "_" ++ toString keyTime
  let workingDir := resolveWorkingDir envCWD st.currentCwd cwdArg
  match spawnPid with
  | none =>
    (Except.error "Failed to start process: Error: Failed to start process: No PID returned",
      st)
  | some pid =>
    let actualLogFilePath :=
      if !autoShutdown then getLogFilePath logDir tempTime
      else getLogFilePath logDir pid
    let newRunning :=
      if trackedPid st pid then st.runningProcesses else pid :: st.runningProcesses
    let st1 := { st with runningProcesses := newRunning }
    let processData : ProcessData :=
      { pid := pid, command := command, cwd := workingDir,
        status := ProcessStatus.running, startTime := startTime,
        autoShutdown := autoShutdown, logFile := some actualLogFilePath,
        errorOutput := none }
    (Except.ok pid, storeProcessData st1 processKey processData none)

/-! ### Claim C10: a failed `startProcess` leaves no trace -/

/-- C10: when the spawn produces no pid (`execa` threw or
`childProcess.pid` was undefined), `startProcess` throws and the whole
manager state — persisted store and in-memory handle table alike — is
exactly as before: the record is only stored after a pid exists. -/
theorem startProcess_failure_leaves_state_unchanged (envCWD : Option String)
    (keyTime tempTime startTime : Nat) (logDir : String) (st : ManagerState)
    (command : String) (autoShutdown : Bool) (cwdArg : Option String) :
    startProcess envCWD none keyTime tempTime startTime logDir st command
        autoShutdown cwdArg =
      (Except.error "Failed to start process: Error: Failed to start process: No PID returned",
        st) := rfl

/-! ### Claim C3: which partition receives the new record -/

def c3State : ManagerState :=
  { store := [], runningProcesses := [], currentCwd := "/a" }

/-- C3 counterexample: starting `"srv"` with working-directory override
`"/b"` while the supervisor's current directory is `"/a"` stores the record
in partition `"/a"` — the supervisor's own partition — with `cwd` field
`"/b"`, and partition `"/b"` stays empty.  This refutes both the claimed
invariant (partition key = record cwd) and the claimed insertion into the
resolved-directory partition. -/
theorem startProcess_stores_under_currentCwd :
    lookupRecord (startProcess none (some 42) 1 2 3 "/logs" c3State "srv" true
        (some "/b")).2 "/a" "srv_1" =
      some { pid := 42, command := "srv", cwd := "/b",
             status := ProcessStatus.running, startTime := 3, autoShutdown := true,
             logFile := some "/logs/process_42.log", errorOutput := none } ∧
      getPartition (startProcess none (some 42) 1 2 3 "/logs" c3State "srv" true
        (some "/b")).2.store "/b" = [] ∧
      ("/b" : String) ≠ "/a" := by
  refine ⟨rfl, rfl, by decide⟩

/-- C3 (amended): a record created by `startProcess` is inserted into the
partition keyed by the supervisor's own current directory, its `cwd` field
holding the resolved working directory (override taken as-is when
absolute, otherwise resolved against `process.env.CWD || currentCwd`);
partitions other than the current-directory one are untouched.  Partition
key and `cwd` field therefore agree only when the resolved directory
equals the supervisor's current directory. -/
theorem startProcess_insertion_partition (envCWD : Option String)
    (pid keyTime tempTime startTime : Nat) (logDir : String) (st : ManagerState)
    (command : String) (autoShutdown : Bool) (cwdArg : Option String) :
    lookupRecord (startProcess envCWD (some pid) keyTime tempTime startTime
        logDir st command autoShutdown cwdArg).2 st.currentCwd
        (command ++ "_" ++ toString keyTime) =
      some { pid := pid, command := command,
             cwd := resolveWorkingDir envCWD st.currentCwd cwdArg,
             status := ProcessStatus.running, startTime := startTime,
             autoShutdown := autoShutdown,
             logFile := some (if autoShutdown then getLogFilePath logDir pid
               else getLogFilePath logDir tempTime),
             errorOutput := none } ∧
      ∀ c, c ≠ st.currentCwd →
        getPartition (startProcess envCWD (some pid) keyTime tempTime startTime
          logDir st command autoShutdown cwdArg).2.store c =
        getPartition st.store c := by
  constructor
  · show lookupRecord (storeProcessData _ _ _ none) _ _ = _
    rw [lookupRecord, storeProcessData]
    simp only [Option.getD]
    rw [getPartition_putKey_self, lookupKey_putKey_self]
    cases autoShutdown <;> rfl
  · intro c hc
    show getPartition (storeProcessData _ _ _ none).store c = _
    rw [storeProcessData]
    simp only [Option.getD]
    exact getPartition_putKey_other _ _ _ _ hc

/-- C3 witness: the amended statement evaluated at the counterexample
input; the frame clause is instantiated at partition `"/zz"`. -/
theorem startProcess_insertion_partition_witness :
    lookupRecord (startProcess none (some 42) 1 2 3 "/logs" c3State "srv" true
        (some "/b")).2 "/a" "srv_1" =
      some { pid := 42, command := "srv",
             cwd := resolveWorkingDir none "/a" (some "/b"),
             status := ProcessStatus.running, startTime := 3, autoShutdown := true,
             logFile := some (if true then getLogFilePath "/logs" 42
               else getLogFilePath "/logs" 2),
             errorOutput := none } ∧
      getPartition (startProcess none (some 42) 1 2 3 "/logs" c3State "srv" true
        (some "/b")).2.store "/zz" = getPartition c3State.store "/zz" := by
  have h := startProcess_insertion_partition none 42 1 2 3 "/logs" c3State
    "srv" true (some "/b")
  exact ⟨h.1, h.2 "/zz" (by decide)⟩

/-! ### Claim C9: how the stored log-file path is derived -/

/-- C9 counterexample: a persistent (`autoShutdown = false`) process
spawned with pid 42 while the pre-spawn `Date.now()` read 1000 keeps the
timestamp-derived log path in its stored record: the stored `logFile` is
`process_1000.log`, not the pid-derived `process_42.log`, and it is never
replaced after the pid becomes known. -/
theorem persistent_logFile_is_timestamp_derived :
    lookupRecord (startProcess none (some 42) 1 1000 3 "/logs" c3State "srv"
        false none).2 "/a" "srv_1" =
      some { pid := 42, command := "srv", cwd := "/a",
             status := ProcessStatus.running, startTime := 3, autoShutdown := false,
             logFile := some "/logs/process_1000.log", errorOutput := none } ∧
      (some "/logs/process_1000.log" : Option String) ≠
        some "/logs/process_42.log" := by
  refine ⟨rfl, by decide⟩

/-- C9 (amended): the record stored by `startProcess` carries a pid-derived
log path (`process_<pid>.log`) for ephemeral (`autoShutdown = true`)
processes, but for persistent (`autoShutdown = false`) processes it
permanently carries the timestamp-derived path that was opened before the
spawn — the stored path is never switched to a pid-derived one. -/
theorem startProcess_logFile_derivation (envCWD : Option String)
    (pid keyTime tempTime startTime : Nat) (logDir : String) (st : ManagerState)
    (command : String) (autoShutdown : Bool) (cwdArg : Option String) :
    ∃ r, lookupRecord (startProcess envCWD (some pid) keyTime tempTime
        startTime logDir st command autoShutdown cwdArg).2 st.currentCwd
        (command ++ "_" ++ toString keyTime) = some r ∧
      r.logFile = some (getLogFilePath logDir
        (if autoShutdown then pid else tempTime)) := by
  refine ⟨{ pid := pid, command := command,
            cwd := resolveWorkingDir envCWD st.currentCwd cwdArg,
            status := ProcessStatus.running, startTime := startTime,
            autoShutdown := autoShutdown,
            logFile := some (if !autoShutdown then getLogFilePath logDir tempTime
              else getLogFilePath logDir pid),
            errorOutput := none }, ?_, ?_⟩
  · show lookupRecord (storeProcessData _ _ _ none) _ _ = some _
    rw [lookupRecord, storeProcessData]
    simp only [Option.getD]
    rw [getPartition_putKey_self, lookupKey_putKey_self]
  · cases autoShutdown <;> rfl

/-! ### `checkProcessHealth` (the monitor loop's health scan) -/

/-- The partition of the caller's current working directory
(`getCurrentCwdProcesses`). -/
def curPart (st : ManagerState) : Partition :=
  getPartition st.store st.currentCwd

/-- The body of the `for` loop of `checkProcessHealth`: for a `running`
record whose probe `process.kill(pid, 0)` throws, set the status to
`stopped`, write it back, and drop the in-memory handle. -/
def healthStep (alive : Nat → Bool) (acc : ManagerState)
    (kd : String × ProcessData) : ManagerState :=
  if kd.2.status = ProcessStatus.running then
    if alive kd.2.pid then acc
    else
      let d2 := { kd.2 with status := ProcessStatus.stopped }
      let acc1 := updateProcessData acc kd.1 d2 none
      { acc1 with runningProcesses :=
          acc1.runningProcesses.filter (fun q => q ≠ kd.2.pid) }
  else acc

/-- `ProcessManager.checkProcessHealth()`: iterate over a snapshot of the
current directory's partition. -/
def checkProcessHealth (alive : Nat → Bool) (st : ManagerState) : ManagerState :=
  (curPart st).foldl (healthStep alive) st

theorem healthStep_eq (alive : Nat → Bool) (acc : ManagerState)
    (kd : String × ProcessData) :
    healthStep alive acc kd =
      if kd.2.status = ProcessStatus.running ∧ alive kd.2.pid = false then
        { store :=
            if (getPartition acc.store acc.currentCwd).any (fun kv => kv.1 = kd.1)
            then putKey acc.store acc.currentCwd
              (putKey (getPartition acc.store acc.currentCwd) kd.1
                { kd.2 with status := ProcessStatus.stopped })
            else acc.store,
          runningProcesses := acc.runningProcesses.filter (fun q => q ≠ kd.2.pid),
          currentCwd := acc.currentCwd }
      else acc := by
  by_cases h1 : kd.2.status = ProcessStatus.running
  · by_cases h2 : alive kd.2.pid
    · have h2f : ¬(kd.2.status = ProcessStatus.running ∧ alive kd.2.pid = false) := by
        simp [h2]
      rw [if_neg h2f]
      simp [healthStep, h1, h2]
    · have h2t : kd.2.status = ProcessStatus.running ∧ alive kd.2.pid = false := by
        simp [h1, h2]
      rw [if_pos h2t]
      simp only [healthStep, h1, if_true, Bool.not_eq_true] at h2 ⊢
      rw [if_neg (by simp [h2])]
      unfold updateProcessData
      simp only [Option.getD]
      split <;> rfl
  · have h1f : ¬(kd.2.status = ProcessStatus.running ∧ alive kd.2.pid = false) := by
      simp [h1]
    rw [if_neg h1f]
    simp [healthStep, h1]

theorem healthStep_currentCwd (alive : Nat → Bool) (acc : ManagerState)
    (kd : String × ProcessData) :
    (healthStep alive acc kd).currentCwd = acc.currentCwd := by
  rw [healthStep_eq]; split <;> rfl

theorem healthStep_other_partition (alive : Nat → Bool) (acc : ManagerState)
    (kd : String × ProcessData) (c : String) (hc : c ≠ acc.currentCwd) :
    getPartition (healthStep alive acc kd).store c = getPartition acc.store c := by
  rw [healthStep_eq]
  split
  · dsimp only
    split
    · exact getPartition_putKey_other _ _ _ _ hc
    · rfl
  · rfl

theorem healthStep_other_key (alive : Nat → Bool) (acc : ManagerState)
    (kd : String × ProcessData) (q : String) (hq : q ≠ kd.1) :
    lookupKey (getPartition (healthStep alive acc kd).store acc.currentCwd) q =
      lookupKey (getPartition acc.store acc.currentCwd) q := by
  rw [healthStep_eq]
  split
  · dsimp only
    split
    · rw [getPartition_putKey_self, lookupKey_putKey_other _ _ _ _ hq]
    · rfl
  · rfl

theorem healthStep_own_key (alive : Nat → Bool) (acc : ManagerState)
    (kd : String × ProcessData)
    (hex : (lookupKey (getPartition acc.store acc.currentCwd) kd.1).isSome) :
    lookupKey (getPartition (healthStep alive acc kd).store acc.currentCwd) kd.1 =
      (if kd.2.status = ProcessStatus.running ∧ alive kd.2.pid = false
       then some { kd.2 with status := ProcessStatus.stopped }
       else lookupKey (getPartition acc.store acc.currentCwd) kd.1) := by
  rw [healthStep_eq]
  split
  · dsimp only
    rw [lookupKey_isSome_iff_any] at hex
    rw [if_pos hex, getPartition_putKey_self, lookupKey_putKey_self]
  · rfl

theorem healthStep_running_subset (alive : Nat → Bool) (acc : ManagerState)
    (kd : String × ProcessData) (q : Nat)
    (h : q ∈ (healthStep alive acc kd).runningProcesses) :
    q ∈ acc.runningProcesses := by
  rw [healthStep_eq] at h
  revert h
  split
  · intro h
    exact List.mem_of_mem_filter h
  · intro h
    exact h

theorem healthStep_drops_pid (alive : Nat → Bool) (acc : ManagerState)
    (kd : String × ProcessData)
    (hrun : kd.2.status = ProcessStatus.running) (hdead : alive kd.2.pid = false) :
    kd.2.pid ∉ (healthStep alive acc kd).runningProcesses := by
  rw [healthStep_eq, if_pos ⟨hrun, hdead⟩]
  intro h
  have := List.of_mem_filter h
  simp at this

/-- Characterization of the health-scan loop over an arbitrary snapshot
`todo` with distinct keys. -/
theorem healthFold_spec (alive : Nat → Bool) (todo : List (String × ProcessData))
    (acc : ManagerState) (hnd : (todo.map Prod.fst).Nodup)
    (hex : ∀ kd ∈ todo,
      (lookupKey (getPartition acc.store acc.currentCwd) kd.1).isSome) :
    (todo.foldl (healthStep alive) acc).currentCwd = acc.currentCwd ∧
    (∀ c, c ≠ acc.currentCwd →
      getPartition (todo.foldl (healthStep alive) acc).store c =
        getPartition acc.store c) ∧
    (∀ q, q ∉ todo.map Prod.fst →
      lookupKey (getPartition (todo.foldl (healthStep alive) acc).store
          acc.currentCwd) q =
        lookupKey (getPartition acc.store acc.currentCwd) q) ∧
    (∀ kd ∈ todo,
      lookupKey (getPartition (todo.foldl (healthStep alive) acc).store
          acc.currentCwd) kd.1 =
        (if kd.2.status = ProcessStatus.running ∧ alive kd.2.pid = false
         then some { kd.2 with status := ProcessStatus.stopped }
         else lookupKey (getPartition acc.store acc.currentCwd) kd.1)) ∧
    (∀ q, q ∈ (todo.foldl (healthStep alive) acc).runningProcesses →
      q ∈ acc.runningProcesses) ∧
    (∀ kd ∈ todo, kd.2.status = ProcessStatus.running → alive kd.2.pid = false →
      kd.2.pid ∉ (todo.foldl (healthStep alive) acc).runningProcesses) := by
  induction todo generalizing acc with
  | nil =>
    refine ⟨rfl, fun c _ => rfl, fun q _ => rfl, ?_, fun q h => h, ?_⟩
    · intro kd h; cases h
    · intro kd h; cases h
  | cons kd rest ih =>
    simp only [List.map_cons, List.nodup_cons] at hnd
    have hcur : (healthStep alive acc kd).currentCwd = acc.currentCwd :=
      healthStep_currentCwd alive acc kd
    have hexrest : ∀ kd2 ∈ rest,
        (lookupKey (getPartition (healthStep alive acc kd).store
          (healthStep alive acc kd).currentCwd) kd2.1).isSome := by
      intro kd2 h2
      have hne : kd2.1 ≠ kd.1 := by
        intro hq
        exact hnd.1 (hq ▸ List.mem_map.mpr ⟨kd2, h2, rfl⟩)
      rw [hcur, healthStep_other_key alive acc kd kd2.1 hne]
      exact hex kd2 (List.mem_cons_of_mem _ h2)
    obtain ⟨ih1, ih2, ih3, ih4, ih5, ih6⟩ :=
      ih (healthStep alive acc kd) hnd.2 hexrest
    rw [hcur] at ih1 ih2 ih3 ih4
    refine ⟨?_, ?_, ?_, ?_, ?_, ?_⟩
    · simpa [List.foldl_cons] using ih1
    · intro c hc
      simp only [List.foldl_cons]
      rw [ih2 c hc, healthStep_other_partition alive acc kd c hc]
    · intro q hq
      simp only [List.map_cons, List.mem_cons, not_or] at hq
      simp only [List.foldl_cons]
      rw [ih3 q hq.2, healthStep_other_key alive acc kd q hq.1]
    · intro kd2 h2
      simp only [List.foldl_cons]
      rcases List.mem_cons.mp h2 with h | h
      · subst h
        have hknotin : kd2.1 ∉ rest.map Prod.fst := hnd.1
        rw [ih3 kd2.1 hknotin,
          healthStep_own_key alive acc kd2 (hex kd2 (List.mem_cons_self _ _))]
      · have hne : kd2.1 ≠ kd.1 := by
          intro hq
          exact hnd.1 (hq ▸ List.mem_map.mpr ⟨kd2, h, rfl⟩)
        rw [ih4 kd2 h]
        split
        · rfl
        · exact healthStep_other_key alive acc kd kd2.1 hne
    · intro q hq
      simp only [List.foldl_cons] at hq
      exact healthStep_running_subset alive acc kd q (ih5 q hq)
    · intro kd2 h2 hrun hdead
      simp only [List.foldl_cons]
      rcases List.mem_cons.mp h2 with h | h
      · subst h
        intro hmem
        exact healthStep_drops_pid alive acc kd2 hrun hdead
          (ih5 kd2.2.pid hmem)
      · exact ih6 kd2 h hrun hdead

/-! ### Claim C4: what the health scan does and does not touch -/

/-- C4 (amended): within the caller's current-directory partition,
`checkProcessHealth` transitions every `running` record whose liveness
probe fails to `stopped` (never to `crashed`) and drops its in-memory
handle; records whose probe succeeds and records not in `running` keep
their exact value; partitions other than the current directory are not
touched at all — and consequently no record anywhere ever becomes
`crashed` through the health scan. -/
theorem checkProcessHealth_spec (alive : Nat → Bool) (st : ManagerState)
    (hnd : ((curPart st).map Prod.fst).Nodup) :
    (checkProcessHealth alive st).currentCwd = st.currentCwd ∧
    (∀ c, c ≠ st.currentCwd →
      getPartition (checkProcessHealth alive st).store c = getPartition st.store c) ∧
    (∀ k d, lookupRecord st st.currentCwd k = some d →
      lookupRecord (checkProcessHealth alive st) st.currentCwd k =
        (if d.status = ProcessStatus.running ∧ alive d.pid = false
         then some { d with status := ProcessStatus.stopped }
         else some d)) ∧
    (∀ k d, lookupRecord st st.currentCwd k = some d →
      d.status = ProcessStatus.running → alive d.pid = false →
      d.pid ∉ (checkProcessHealth alive st).runningProcesses) ∧
    (∀ c k d2, lookupRecord (checkProcessHealth alive st) c k = some d2 →
      d2.status = ProcessStatus.crashed → lookupRecord st c k = some d2) := by
  have hex : ∀ kd ∈ curPart st,
      (lookupKey (getPartition st.store st.currentCwd) kd.1).isSome := by
    intro kd hkd
    have hl : lookupKey (curPart st) kd.1 = some kd.2 :=
      lookupKey_eq_some_of_mem_nodup hnd hkd
    have hl2 : lookupKey (getPartition st.store st.currentCwd) kd.1 = some kd.2 := hl
    rw [hl2]
    rfl
  obtain ⟨h1, h2, h3, h4, h5, h6⟩ := healthFold_spec alive (curPart st) st hnd hex
  have hmain : ∀ k d, lookupRecord st st.currentCwd k = some d →
      lookupRecord (checkProcessHealth alive st) st.currentCwd k =
        (if d.status = ProcessStatus.running ∧ alive d.pid = false
         then some { d with status := ProcessStatus.stopped }
         else some d) := by
    intro k d hkd
    have hmem : (k, d) ∈ curPart st := mem_of_lookupKey_eq_some hkd
    have h4k := h4 (k, d) hmem
    dsimp only at h4k
    have hgoal : lookupKey (getPartition ((curPart st).foldl (healthStep alive)
        st).store st.currentCwd) k =
        (if d.status = ProcessStatus.running ∧ alive d.pid = false
         then some { d with status := ProcessStatus.stopped }
         else some d) := by
      by_cases hcond : d.status = ProcessStatus.running ∧ alive d.pid = false
      · rw [if_pos hcond] at h4k ⊢
        exact h4k
      · rw [if_neg hcond] at h4k ⊢
        have hkd2 : lookupKey (getPartition st.store st.currentCwd) k = some d := hkd
        exact h4k.trans hkd2
    exact hgoal
  refine ⟨h1, ?_, hmain, ?_, ?_⟩
  · intro c hc
    exact h2 c hc
  · intro k d hkd hrun hdead
    exact h6 (k, d) (mem_of_lookupKey_eq_some hkd) hrun hdead
  · intro c k d2 hres hcrash
    by_cases hc : c = st.currentCwd
    · subst hc
      cases hcur : lookupRecord st st.currentCwd k with
      | some d =>
        have hm := hmain k d hcur
        rw [hres] at hm
        by_cases hcond : d.status = ProcessStatus.running ∧ alive d.pid = false
        · rw [if_pos hcond] at hm
          have hd2 : d2 = { d with status := ProcessStatus.stopped } := by
            injection hm with h
          rw [hd2] at hcrash
          simp at hcrash
        · rw [if_neg hcond] at hm
          have hd2 : d2 = d := by injection hm with h
          rw [hd2]
      | none =>
        have hcur2 : lookupKey (curPart st) k = none := hcur
        have hnotin : k ∉ (curPart st).map Prod.fst := by
          intro hk
          rcases List.mem_map.mp hk with ⟨kd, hkd2, hfst⟩
          have hany : (curPart st).any (fun kv => kv.1 = k) = true :=
            List.any_eq_true.mpr ⟨kd, hkd2, by simp [hfst]⟩
          have hiso := lookupKey_isSome_iff_any (curPart st) k
          rw [hcur2, hany] at hiso
          simp at hiso
        have h3k := h3 k hnotin
        have hres2 : lookupKey (getPartition ((curPart st).foldl (healthStep alive)
            st).store st.currentCwd) k = some d2 := hres
        rw [h3k] at hres2
        have hcur3 : lookupKey (getPartition st.store st.currentCwd) k = none := hcur
        rw [hcur3] at hres2
        cases hres2
    · have h2c := h2 c hc
      have hres2 : lookupKey (getPartition ((curPart st).foldl (healthStep alive)
          st).store c) k = some d2 := hres
      rw [h2c] at hres2
      exact hres2

def c4DeadData : ProcessData :=
  { pid := 11, command := "a", cwd := "/a", status := ProcessStatus.running,
    startTime := 0, autoShutdown := true,
    logFile := some "/logs/process_11.log", errorOutput := none }

def c4AliveData : ProcessData :=
  { pid := 12, command := "b", cwd := "/a", status := ProcessStatus.running,
    startTime := 0, autoShutdown := true,
    logFile := some "/logs/process_12.log", errorOutput := none }

def c4StoppedData : ProcessData :=
  { pid := 13, command := "c", cwd := "/a", status := ProcessStatus.stopped,
    startTime := 0, autoShutdown := false,
    logFile := some "/logs/process_13.log", errorOutput := none }

def c4State : ManagerState :=
  { store := [("/a", [("k1", c4DeadData), ("k2", c4AliveData), ("k3", c4StoppedData)]),
      ("/b", [("kb", c4DeadData)])],
    runningProcesses := [11, 12], currentCwd := "/a" }

def c4Alive : Nat → Bool := fun p => p = 12

/-- C4 witness: in the current partition the dead running record k1 is
stopped and its handle dropped, the alive record k2 and the stopped record
k3 keep their values, and the foreign partition "/b" is untouched. -/
theorem checkProcessHealth_spec_witness :
    (checkProcessHealth c4Alive c4State).currentCwd = c4State.currentCwd ∧
    getPartition (checkProcessHealth c4Alive c4State).store "/b" =
      getPartition c4State.store "/b" ∧
    lookupRecord (checkProcessHealth c4Alive c4State) c4State.currentCwd "k1" =
      (if c4DeadData.status = ProcessStatus.running ∧ c4Alive c4DeadData.pid = false
       then some { c4DeadData with status := ProcessStatus.stopped }
       else some c4DeadData) ∧
    lookupRecord (checkProcessHealth c4Alive c4State) c4State.currentCwd "k2" =
      (if c4AliveData.status = ProcessStatus.running ∧ c4Alive c4AliveData.pid = false
       then some { c4AliveData with status := ProcessStatus.stopped }
       else some c4AliveData) ∧
    lookupRecord (checkProcessHealth c4Alive c4State) c4State.currentCwd "k3" =
      (if c4StoppedData.status = ProcessStatus.running ∧ c4Alive c4StoppedData.pid = false
       then some { c4StoppedData with status := ProcessStatus.stopped }
       else some c4StoppedData) ∧
    c4DeadData.pid ∉ (checkProcessHealth c4Alive c4State).runningProcesses := by
  have h := checkProcessHealth_spec c4Alive c4State (by decide)
  exact ⟨h.1, h.2.1 "/b" (by decide), h.2.2.1 "k1" c4DeadData rfl,
    h.2.2.1 "k2" c4AliveData rfl, h.2.2.1 "k3" c4StoppedData rfl,
    h.2.2.2.1 "k1" c4DeadData rfl rfl rfl⟩

def c4bData : ProcessData :=
  { pid := 9, command := "x", cwd := "/b", status := ProcessStatus.running,
    startTime := 0, autoShutdown := true,
    logFile := some "/logs/process_9.log", errorOutput := none }

def c4bState : ManagerState :=
  { store := [("/a", []), ("/b", [("kb", c4bData)])],
    runningProcesses := [9], currentCwd := "/a" }

/-- C4 counterexample: a `running` record in partition "/b" whose liveness
probe fails (every pid dead) is NOT transitioned to `stopped` by
`checkProcessHealth`, because the scan only covers the caller's current
partition "/a" — refuting the claim's quantification over every record. -/
theorem checkProcessHealth_ignores_foreign_partition :
    lookupRecord (checkProcessHealth (fun _ => false) c4bState) "/b" "kb" =
      some c4bData ∧
    c4bData.status = ProcessStatus.running ∧
    (fun (_ : Nat) => false) c4bData.pid = false := by
  exact ⟨rfl, rfl, rfl⟩

/-! ### Startup reconciliation: `cleanupStaleAutoShutdownProcesses` -/

/-- The deletion condition of the startup reconciliation: an autoShutdown
record whose probe fails or whose status is not `running`. -/
def staleCond (alive : Nat → Bool) (d : ProcessData) : Prop :=
  d.autoShutdown = true ∧ (alive d.pid = false ∨ d.status ≠ ProcessStatus.running)

instance (alive : Nat → Bool) (d : ProcessData) : Decidable (staleCond alive d) := by
  unfold staleCond
  infer_instance

/-- Body of the nested loops of `cleanupStaleAutoShutdownProcesses`: probe
the pid of an autoShutdown record and delete the record from its own cwd
partition when the probe fails or the status is not `running`. -/
def staleStep (alive : Nat → Bool) (acc : ManagerState) (c k : String)
    (d : ProcessData) : ManagerState :=
  if d.autoShutdown then
    if alive d.pid = false ∨ d.status ≠ ProcessStatus.running then
      { acc with store := putKey acc.store c (delKey (getPartition acc.store c) k) }
    else acc
  else acc

/-- `ProcessManager.cleanupStaleAutoShutdownProcesses()`: iterate over a
snapshot of `this.config.store`, all partitions included. -/
def cleanupStaleAutoShutdownProcesses (alive : Nat → Bool) (st : ManagerState) :
    ManagerState :=
  st.store.foldl
    (fun acc cp => cp.2.foldl (fun a kd => staleStep alive a cp.1 kd.1 kd.2) acc) st

theorem staleStep_eq (alive : Nat → Bool) (acc : ManagerState) (c k : String)
    (d : ProcessData) :
    staleStep alive acc c k d =
      if staleCond alive d then
        { acc with store := putKey acc.store c (delKey (getPartition acc.store c) k) }
      else acc := by
  unfold staleStep staleCond
  by_cases h1 : d.autoShutdown
  · by_cases h2 : alive d.pid = false ∨ d.status ≠ ProcessStatus.running
    · rw [if_pos h1, if_pos h2, if_pos ⟨h1, h2⟩]
    · rw [if_pos h1, if_neg h2, if_neg (by simp [h2])]
  · rw [if_neg h1, if_neg (by simp [h1])]

theorem staleStep_fields (alive : Nat → Bool) (acc : ManagerState) (c k : String)
    (d : ProcessData) :
    (staleStep alive acc c k d).currentCwd = acc.currentCwd ∧
      (staleStep alive acc c k d).runningProcesses = acc.runningProcesses := by
  rw [staleStep_eq]
  split <;> exact ⟨rfl, rfl⟩

theorem staleStep_other_partition (alive : Nat → Bool) (acc : ManagerState)
    (c k : String) (d : ProcessData) (c2 : String) (hc : c2 ≠ c) :
    getPartition (staleStep alive acc c k d).store c2 = getPartition acc.store c2 := by
  rw [staleStep_eq]
  split
  · exact getPartition_putKey_other _ _ _ _ hc
  · rfl

theorem staleStep_other_key (alive : Nat → Bool) (acc : ManagerState)
    (c k : String) (d : ProcessData) (q : String) (hq : q ≠ k) :
    lookupKey (getPartition (staleStep alive acc c k d).store c) q =
      lookupKey (getPartition acc.store c) q := by
  rw [staleStep_eq]
  split
  · rw [getPartition_putKey_self, lookupKey_delKey_other _ _ _ hq]
  · rfl

theorem staleStep_own_key (alive : Nat → Bool) (acc : ManagerState)
    (c k : String) (d : ProcessData) :
    lookupKey (getPartition (staleStep alive acc c k d).store c) k =
      (if staleCond alive d then none
       else lookupKey (getPartition acc.store c) k) := by
  rw [staleStep_eq]
  split
  · rw [getPartition_putKey_self, lookupKey_delKey_self]
  · rfl

/-- Characterization of the inner (per-partition) reconciliation loop. -/
theorem staleFoldPart_spec (alive : Nat → Bool) (c : String)
    (todo : List (String × ProcessData)) (acc : ManagerState)
    (hnd : (todo.map Prod.fst).Nodup) :
    ((todo.foldl (fun a kd => staleStep alive a c kd.1 kd.2) acc).currentCwd =
        acc.currentCwd ∧
      (todo.foldl (fun a kd => staleStep alive a c kd.1 kd.2) acc).runningProcesses =
        acc.runningProcesses) ∧
    (∀ c2, c2 ≠ c →
      getPartition (todo.foldl (fun a kd => staleStep alive a c kd.1 kd.2) acc).store c2 =
        getPartition acc.store c2) ∧
    (∀ q, q ∉ todo.map Prod.fst →
      lookupKey (getPartition (todo.foldl (fun a kd => staleStep alive a c kd.1 kd.2)
          acc).store c) q =
        lookupKey (getPartition acc.store c) q) ∧
    (∀ kd ∈ todo,
      lookupKey (getPartition (todo.foldl (fun a kd => staleStep alive a c kd.1 kd.2)
          acc).store c) kd.1 =
        (if staleCond alive kd.2 then none
         else lookupKey (getPartition acc.store c) kd.1)) := by
  induction todo generalizing acc with
  | nil =>
    refine ⟨⟨rfl, rfl⟩, fun c2 _ => rfl, fun q _ => rfl, ?_⟩
    intro kd h; cases h
  | cons kd rest ih =>
    simp only [List.map_cons, List.nodup_cons] at hnd
    obtain ⟨⟨ih0, ih1⟩, ih2, ih3, ih4⟩ := ih (staleStep alive acc c kd.1 kd.2) hnd.2
    have hf := staleStep_fields alive acc c kd.1 kd.2
    refine ⟨⟨?_, ?_⟩, ?_, ?_, ?_⟩
    · simpa [List.foldl_cons, hf.1] using ih0
    · simpa [List.foldl_cons, hf.2] using ih1
    · intro c2 hc
      simp only [List.foldl_cons]
      rw [ih2 c2 hc, staleStep_other_partition alive acc c kd.1 kd.2 c2 hc]
    · intro q hq
      simp only [List.map_cons, List.mem_cons, not_or] at hq
      simp only [List.foldl_cons]
      rw [ih3 q hq.2, staleStep_other_key alive acc c kd.1 kd.2 q hq.1]
    · intro kd2 h2
      simp only [List.foldl_cons]
      rcases List.mem_cons.mp h2 with h | h
      · subst h
        rw [ih3 kd2.1 hnd.1, staleStep_own_key]
      · have hne : kd2.1 ≠ kd.1 := by
          intro hq
          exact hnd.1 (hq ▸ List.mem_map.mpr ⟨kd2, h, rfl⟩)
        rw [ih4 kd2 h]
        split
        · rfl
        · exact staleStep_other_key alive acc c kd.1 kd.2 kd2.1 hne

/-- Characterization of the outer (cross-partition) reconciliation loop. -/
theorem staleFold_spec (alive : Nat → Bool) (parts : List (String × Partition))
    (acc : ManagerState) (hnd : (parts.map Prod.fst).Nodup)
    (hpnd : ∀ cp ∈ parts, (cp.2.map Prod.fst).Nodup) :
    ((parts.foldl (fun a cp => cp.2.foldl
        (fun a2 kd => staleStep alive a2 cp.1 kd.1 kd.2) a) acc).currentCwd =
        acc.currentCwd ∧
      (parts.foldl (fun a cp => cp.2.foldl
        (fun a2 kd => staleStep alive a2 cp.1 kd.1 kd.2) a) acc).runningProcesses =
        acc.runningProcesses) ∧
    (∀ c2, c2 ∉ parts.map Prod.fst →
      getPartition (parts.foldl (fun a cp => cp.2.foldl
          (fun a2 kd => staleStep alive a2 cp.1 kd.1 kd.2) a) acc).store c2 =
        getPartition acc.store c2) ∧
    (∀ cp ∈ parts,
      (∀ kd ∈ cp.2,
        lookupKey (getPartition (parts.foldl (fun a cp => cp.2.foldl
            (fun a2 kd => staleStep alive a2 cp.1 kd.1 kd.2) a) acc).store cp.1) kd.1 =
          (if staleCond alive kd.2 then none
           else lookupKey (getPartition acc.store cp.1) kd.1)) ∧
      (∀ q, q ∉ cp.2.map Prod.fst →
        lookupKey (getPartition (parts.foldl (fun a cp => cp.2.foldl
            (fun a2 kd => staleStep alive a2 cp.1 kd.1 kd.2) a) acc).store cp.1) q =
          lookupKey (getPartition acc.store cp.1) q)) := by
  induction parts generalizing acc with
  | nil =>
    refine ⟨⟨rfl, rfl⟩, fun c2 _ => rfl, ?_⟩
    intro cp h; cases h
  | cons cp1 rest ih =>
    simp only [List.map_cons, List.nodup_cons] at hnd
    rcases cp1 with ⟨c1, p1⟩
    obtain ⟨⟨in0, in1⟩, in2, in3, in4⟩ :=
      staleFoldPart_spec alive c1 p1 acc (hpnd (c1, p1) (List.mem_cons_self _ _))
    obtain ⟨⟨ih0, ih1⟩, ih2, ih3⟩ :=
      ih (p1.foldl (fun a kd => staleStep alive a c1 kd.1 kd.2) acc) hnd.2
        (fun cp h => hpnd cp (List.mem_cons_of_mem _ h))
    refine ⟨⟨?_, ?_⟩, ?_, ?_⟩
    · simpa [List.foldl_cons, in0] using ih0
    · simpa [List.foldl_cons, in1] using ih1
    · intro c2 hc
      simp only [List.map_cons, List.mem_cons, not_or] at hc
      simp only [List.foldl_cons]
      rw [ih2 c2 hc.2, in2 c2 hc.1]
    · intro cp hcp
      rcases List.mem_cons.mp hcp with h | h
      · subst h
        have hc1 : c1 ∉ rest.map Prod.fst := hnd.1
        constructor
        · intro kd hkd
          simp only [List.foldl_cons]
          rw [ih2 c1 hc1]
          exact in4 kd hkd
        · intro q hq
          simp only [List.foldl_cons]
          rw [ih2 c1 hc1]
          exact in3 q hq
      · have hne : cp.1 ≠ c1 := by
          intro hq
          exact hnd.1 (hq ▸ List.mem_map.mpr ⟨cp, h, rfl⟩)
        obtain ⟨ihkey, ihq⟩ := ih3 cp h
        constructor
        · intro kd hkd
          simp only [List.foldl_cons]
          rw [ihkey kd hkd]
          split
          · rfl
          · rw [in2 cp.1 hne]
        · intro q hq
          simp only [List.foldl_cons]
          rw [ihq q hq, in2 cp.1 hne]

/-! ### Claim C5: what startup reconciliation deletes and keeps -/

/-- C5: run at construction, the reconciliation deletes — in every
partition — exactly those records with `autoShutdown = true` whose liveness
probe fails or whose status is not `running`; every other record, in
particular every `autoShutdown = false` record, keeps its exact value. -/
theorem cleanupStale_spec (alive : Nat → Bool) (st : ManagerState)
    (hnd : (st.store.map Prod.fst).Nodup)
    (hpnd : ∀ cp ∈ st.store, (cp.2.map Prod.fst).Nodup) :
    (∀ c p, (c, p) ∈ st.store → ∀ k d, (k, d) ∈ p →
      lookupRecord (cleanupStaleAutoShutdownProcesses alive st) c k =
        (if d.autoShutdown = true ∧
            (alive d.pid = false ∨ d.status ≠ ProcessStatus.running)
         then none else some d)) ∧
    (cleanupStaleAutoShutdownProcesses alive st).currentCwd = st.currentCwd ∧
    (cleanupStaleAutoShutdownProcesses alive st).runningProcesses =
      st.runningProcesses := by
  obtain ⟨⟨h0, h1⟩, h2, h3⟩ := staleFold_spec alive st.store st hnd hpnd
  refine ⟨?_, h0, h1⟩
  intro c p hcp k d hkd
  obtain ⟨hkey, _⟩ := h3 (c, p) hcp
  have hv := hkey (k, d) hkd
  dsimp only at hv
  have hsp : lookupKey st.store c = some p := lookupKey_eq_some_of_mem_nodup hnd hcp
  have hgp : getPartition st.store c = p := by rw [getPartition, hsp]; rfl
  have hl : lookupKey (getPartition st.store c) k = some d := by
    rw [hgp]
    exact lookupKey_eq_some_of_mem_nodup (hpnd (c, p) hcp) hkd
  rw [hl] at hv
  exact hv

def c5StaleAuto : ProcessData :=
  { pid := 21, command := "a", cwd := "/a", status := ProcessStatus.running,
    startTime := 0, autoShutdown := true,
    logFile := some "/logs/process_21.log", errorOutput := none }

def c5LiveAuto : ProcessData :=
  { pid := 22, command := "b", cwd := "/a", status := ProcessStatus.running,
    startTime := 0, autoShutdown := true,
    logFile := some "/logs/process_22.log", errorOutput := none }

def c5StoppedAuto : ProcessData :=
  { pid := 23, command := "c", cwd := "/b", status := ProcessStatus.stopped,
    startTime := 0, autoShutdown := true,
    logFile := some "/logs/process_23.log", errorOutput := none }

def c5StalePersistent : ProcessData :=
  { pid := 24, command := "d", cwd := "/b", status := ProcessStatus.running,
    startTime := 0, autoShutdown := false,
    logFile := some "/logs/process_24.log", errorOutput := none }

def c5State : ManagerState :=
  { store := [("/a", [("k1", c5StaleAuto), ("k2", c5LiveAuto)]),
      ("/b", [("k3", c5StoppedAuto), ("k4", c5StalePersistent)])],
    runningProcesses := [], currentCwd := "/a" }

def c5Alive : Nat → Bool := fun p => p = 22

/-- C5 witness: the dead autoShutdown record k1 and the stopped
autoShutdown record k3 (in another partition) are deleted; the live
running autoShutdown record k2 stays; the dead persistent record k4 stays
untouched. -/
theorem cleanupStale_spec_witness :
    lookupRecord (cleanupStaleAutoShutdownProcesses c5Alive c5State) "/a" "k1" =
      (if c5StaleAuto.autoShutdown = true ∧
          (c5Alive c5StaleAuto.pid = false ∨ c5StaleAuto.status ≠ ProcessStatus.running)
       then none else some c5StaleAuto) ∧
    lookupRecord (cleanupStaleAutoShutdownProcesses c5Alive c5State) "/a" "k2" =
      (if c5LiveAuto.autoShutdown = true ∧
          (c5Alive c5LiveAuto.pid = false ∨ c5LiveAuto.status ≠ ProcessStatus.running)
       then none else some c5LiveAuto) ∧
    lookupRecord (cleanupStaleAutoShutdownProcesses c5Alive c5State) "/b" "k3" =
      (if c5StoppedAuto.autoShutdown = true ∧
          (c5Alive c5StoppedAuto.pid = false ∨ c5StoppedAuto.status ≠ ProcessStatus.running)
       then none else some c5StoppedAuto) ∧
    lookupRecord (cleanupStaleAutoShutdownProcesses c5Alive c5State) "/b" "k4" =
      (if c5StalePersistent.autoShutdown = true ∧
          (c5Alive c5StalePersistent.pid = false ∨
            c5StalePersistent.status ≠ ProcessStatus.running)
       then none else some c5StalePersistent) := by
  have h := cleanupStale_spec c5Alive c5State (by decide)
    (by
      intro cp hcp
      simp only [c5State, List.mem_cons, List.not_mem_nil, or_false] at hcp
      rcases hcp with rfl | rfl <;> decide)
  exact ⟨h.1 "/a" [("k1", c5StaleAuto), ("k2", c5LiveAuto)] (by simp [c5State])
      "k1" c5StaleAuto (by simp),
    h.1 "/a" [("k1", c5StaleAuto), ("k2", c5LiveAuto)] (by simp [c5State])
      "k2" c5LiveAuto (by simp),
    h.1 "/b" [("k3", c5StoppedAuto), ("k4", c5StalePersistent)] (by simp [c5State])
      "k3" c5StoppedAuto (by simp),
    h.1 "/b" [("k3", c5StoppedAuto), ("k4", c5StalePersistent)] (by simp [c5State])
      "k4" c5StalePersistent (by simp)⟩

/-! ### Shutdown `cleanup` -/

/-- Body of the `for` loop of `cleanup()`: for an autoShutdown record, a
best-effort SIGTERM is attempted when the status is `running` (an OS
effect with no registry or handle-table consequence — `cleanup` never
deletes from `runningProcesses`), then the record is removed from the
caller's current partition unconditionally. -/
def cleanupStep (acc : ManagerState) (kd : String × ProcessData) : ManagerState :=
  if kd.2.autoShutdown then
    let trimmed := delKey (getPartition acc.store acc.currentCwd) kd.1
    { acc with store := putKey acc.store acc.currentCwd trimmed }
  else acc

/-- `ProcessManager.cleanup()`: listener deregistration and timer
cancellation are process-local effects outside the registry model; the
registry effect is the loop over a snapshot of the current partition. -/
def cleanup (st : ManagerState) : ManagerState :=
  (curPart st).foldl cleanupStep st

theorem cleanupStep_fields (acc : ManagerState) (kd : String × ProcessData) :
    (cleanupStep acc kd).currentCwd = acc.currentCwd ∧
      (cleanupStep acc kd).runningProcesses = acc.runningProcesses := by
  unfold cleanupStep
  split <;> exact ⟨rfl, rfl⟩

theorem cleanupStep_other_partition (acc : ManagerState) (kd : String × ProcessData)
    (c2 : String) (hc : c2 ≠ acc.currentCwd) :
    getPartition (cleanupStep acc kd).store c2 = getPartition acc.store c2 := by
  unfold cleanupStep
  split
  · exact getPartition_putKey_other _ _ _ _ hc
  · rfl

theorem cleanupStep_other_key (acc : ManagerState) (kd : String × ProcessData)
    (q : String) (hq : q ≠ kd.1) :
    lookupKey (getPartition (cleanupStep acc kd).store acc.currentCwd) q =
      lookupKey (getPartition acc.store acc.currentCwd) q := by
  unfold cleanupStep
  split
  · rw [getPartition_putKey_self, lookupKey_delKey_other _ _ _ hq]
  · rfl

theorem cleanupStep_own_key (acc : ManagerState) (kd : String × ProcessData) :
    lookupKey (getPartition (cleanupStep acc kd).store acc.currentCwd) kd.1 =
      (if kd.2.autoShutdown = true then none
       else lookupKey (getPartition acc.store acc.currentCwd) kd.1) := by
  unfold cleanupStep
  split
  · show lookupKey (getPartition (putKey acc.store acc.currentCwd
        (delKey (getPartition acc.store acc.currentCwd) kd.1)) acc.currentCwd) kd.1 = _
    rw [getPartition_putKey_self, lookupKey_delKey_self]
  · rfl

/-- Characterization of the `cleanup` loop over an arbitrary snapshot with
distinct keys, for an accumulator whose current directory is `c`. -/
theorem cleanupFold_spec (todo : List (String × ProcessData)) (acc : ManagerState)
    (c : String) (hc : acc.currentCwd = c) (hnd : (todo.map Prod.fst).Nodup) :
    (todo.foldl cleanupStep acc).currentCwd = c ∧
    (todo.foldl cleanupStep acc).runningProcesses = acc.runningProcesses ∧
    (∀ c2, c2 ≠ c →
      getPartition (todo.foldl cleanupStep acc).store c2 = getPartition acc.store c2) ∧
    (∀ q, q ∉ todo.map Prod.fst →
      lookupKey (getPartition (todo.foldl cleanupStep acc).store c) q =
        lookupKey (getPartition acc.store c) q) ∧
    (∀ kd ∈ todo,
      lookupKey (getPartition (todo.foldl cleanupStep acc).store c) kd.1 =
        (if kd.2.autoShutdown = true then none
         else lookupKey (getPartition acc.store c) kd.1)) := by
  induction todo generalizing acc with
  | nil =>
    refine ⟨hc, rfl, fun c2 _ => rfl, fun q _ => rfl, ?_⟩
    intro kd h; cases h
  | cons kd rest ih =>
    simp only [List.map_cons, List.nodup_cons] at hnd
    have hf := cleanupStep_fields acc kd
    obtain ⟨ih0, ih1, ih2, ih3, ih4⟩ :=
      ih (cleanupStep acc kd) (hf.1.trans hc) hnd.2
    subst hc
    refine ⟨ih0, ?_, ?_, ?_, ?_⟩
    · simpa [List.foldl_cons, hf.2] using ih1
    · intro c2 hcne
      simp only [List.foldl_cons]
      rw [ih2 c2 hcne, cleanupStep_other_partition acc kd c2 hcne]
    · intro q hq
      simp only [List.map_cons, List.mem_cons, not_or] at hq
      simp only [List.foldl_cons]
      rw [ih3 q hq.2, cleanupStep_other_key acc kd q hq.1]
    · intro kd2 h2
      simp only [List.foldl_cons]
      rcases List.mem_cons.mp h2 with h | h
      · subst h
        rw [ih3 kd2.1 hnd.1, cleanupStep_own_key]
      · have hne : kd2.1 ≠ kd.1 := by
          intro hq
          exact hnd.1 (hq ▸ List.mem_map.mpr ⟨kd2, h, rfl⟩)
        rw [ih4 kd2 h]
        split
        · rfl
        · exact cleanupStep_other_key acc kd kd2.1 hne

/-! ### Claim C6: shutdown cleanup scope and frame -/

/-- C6: `cleanup()` deletes every `autoShutdown = true` record of the
calling partition whatever its status (`running`, `stopped` or `crashed`),
and leaves every `autoShutdown = false` record with its exact previous
value; partitions other than the caller's are untouched, as is the
in-memory handle table. -/
theorem cleanup_spec (st : ManagerState)
    (hnd : ((curPart st).map Prod.fst).Nodup) :
    (∀ k d, lookupRecord st st.currentCwd k = some d →
      lookupRecord (cleanup st) st.currentCwd k =
        (if d.autoShutdown = true then none else some d)) ∧
    (∀ c, c ≠ st.currentCwd →
      getPartition (cleanup st).store c = getPartition st.store c) ∧
    (cleanup st).currentCwd = st.currentCwd ∧
    (cleanup st).runningProcesses = st.runningProcesses := by
  obtain ⟨h0, h1, h2, h3, h4⟩ :=
    cleanupFold_spec (curPart st) st st.currentCwd rfl hnd
  refine ⟨?_, h2, h0, h1⟩
  intro k d hkd
  have hmem : (k, d) ∈ curPart st := mem_of_lookupKey_eq_some hkd
  have hv := h4 (k, d) hmem
  dsimp only at hv
  have hkd2 : lookupKey (getPartition st.store st.currentCwd) k = some d := hkd
  rw [hkd2] at hv
  exact hv

def c6RunningAuto : ProcessData :=
  { pid := 31, command := "a", cwd := "/a", status := ProcessStatus.running,
    startTime := 0, autoShutdown := true,
    logFile := some "/logs/process_31.log", errorOutput := none }

def c6StoppedAuto : ProcessData :=
  { pid := 32, command := "b", cwd := "/a", status := ProcessStatus.stopped,
    startTime := 0, autoShutdown := true,
    logFile := some "/logs/process_32.log", errorOutput := none }

def c6CrashedAuto : ProcessData :=
  { pid := 33, command := "c", cwd := "/a", status := ProcessStatus.crashed,
    startTime := 0, autoShutdown := true,
    logFile := some "/logs/process_33.log",
    errorOutput := some "Process exited with code 1, signal: null" }

def c6Persistent : ProcessData :=
  { pid := 34, command := "d", cwd := "/a", status := ProcessStatus.running,
    startTime := 0, autoShutdown := false,
    logFile := some "/logs/process_34.log", errorOutput := none }

def c6State : ManagerState :=
  { store := [("/a", [("k1", c6RunningAuto), ("k2", c6StoppedAuto),
      ("k3", c6CrashedAuto), ("k4", c6Persistent)]), ("/b", [("kb", c6Persistent)])],
    runningProcesses := [31], currentCwd := "/a" }

/-- C6 witness: the running, stopped and crashed autoShutdown records of
the calling partition are all deleted, the persistent record keeps its
exact value, and the foreign partition is untouched. -/
theorem cleanup_spec_witness :
    lookupRecord (cleanup c6State) "/a" "k1" =
      (if c6RunningAuto.autoShutdown = true then none else some c6RunningAuto) ∧
    lookupRecord (cleanup c6State) "/a" "k2" =
      (if c6StoppedAuto.autoShutdown = true then none else some c6StoppedAuto) ∧
    lookupRecord (cleanup c6State) "/a" "k3" =
      (if c6CrashedAuto.autoShutdown = true then none else some c6CrashedAuto) ∧
    lookupRecord (cleanup c6State) "/a" "k4" =
      (if c6Persistent.autoShutdown = true then none else some c6Persistent) ∧
    getPartition (cleanup c6State).store "/b" = getPartition c6State.store "/b" := by
  have h := cleanup_spec c6State (by decide)
  exact ⟨h.1 "k1" c6RunningAuto rfl, h.1 "k2" c6StoppedAuto rfl,
    h.1 "k3" c6CrashedAuto rfl, h.1 "k4" c6Persistent rfl,
    h.2.1 "/b" (by decide)⟩

/-! ### Query layer: `getAllProcesses`, `getAllProcessesInDirectory` -/

/-- `ProcessManager.getAllProcesses()`: flatten every partition into a
composite-keyed collection `cwd::processKey → data`, in store iteration
order. -/
def getAllProcesses (st : ManagerState) : List (String × ProcessData) :=
  st.store.foldl
    (fun result cp => result ++ cp.2.map (fun kd => (cp.1 ++ "::" ++ kd.1, kd.2))) []

/-- The partition filter of `getAllProcessesInDirectory`:
`cwd === targetCwd || cwd.startsWith(targetCwd + path.sep)` when
subdirectories are included (on POSIX `path.sep` is `"/"`), plain equality
otherwise. -/
def shouldInclude (targetCwd : String) (includeSubdirectories : Bool)
    (c : String) : Bool :=
  if includeSubdirectories then c = targetCwd || strStartsWith c (targetCwd ++ "/")
  else c = targetCwd

/-- `ProcessManager.getAllProcessesInDirectory(includeSubdirectories = true)`. -/
def getAllProcessesInDirectory (st : ManagerState)
    (includeSubdirectories : Bool) : List (String × ProcessData) :=
  st.store.foldl
    (fun result cp =>
      if shouldInclude st.currentCwd includeSubdirectories cp.1 then
        result ++ cp.2.map (fun kd => (cp.1 ++ "::" ++ kd.1, kd.2))
      else result) []

theorem foldl_guarded_append {α β : Type} (l : List α) (p : α → Bool)
    (f : α → List β) (acc : List β) :
    l.foldl (fun r x => if p x then r ++ f x else r) acc =
      acc ++ (l.filter p).flatMap f := by
  induction l generalizing acc with
  | nil => simp
  | cons x xs ih =>
    by_cases hp : p x
    · simp [List.filter_cons, hp, ih, List.append_assoc]
    · simp [List.filter_cons, hp, ih]

theorem foldl_plain_append {α β : Type} (l : List α) (f : α → List β)
    (acc : List β) :
    l.foldl (fun r x => r ++ f x) acc = acc ++ l.flatMap f := by
  induction l generalizing acc with
  | nil => simp
  | cons x xs ih => simp [ih, List.append_assoc]

theorem mem_getAllProcesses_iff (st : ManagerState) (x : String × ProcessData) :
    x ∈ getAllProcesses st ↔
      ∃ cp ∈ st.store, ∃ kd ∈ cp.2, x = (cp.1 ++ "::" ++ kd.1, kd.2) := by
  unfold getAllProcesses
  rw [foldl_plain_append]
  simp only [List.nil_append, List.mem_flatMap, List.mem_map]
  constructor
  · rintro ⟨cp, hcp, kd, hkd, hx⟩
    exact ⟨cp, hcp, kd, hkd, hx.symm⟩
  · rintro ⟨cp, hcp, kd, hkd, hx⟩
    exact ⟨cp, hcp, kd, hkd, hx.symm⟩

theorem mem_getAllProcessesInDirectory_iff (st : ManagerState) (incl : Bool)
    (x : String × ProcessData) :
    x ∈ getAllProcessesInDirectory st incl ↔
      ∃ cp ∈ st.store, shouldInclude st.currentCwd incl cp.1 = true ∧
        ∃ kd ∈ cp.2, x = (cp.1 ++ "::" ++ kd.1, kd.2) := by
  unfold getAllProcessesInDirectory
  rw [foldl_guarded_append]
  simp only [List.nil_append, List.mem_flatMap, List.mem_filter, List.mem_map]
  constructor
  · rintro ⟨cp, ⟨hcp, hinc⟩, kd, hkd, hx⟩
    exact ⟨cp, hcp, hinc, kd, hkd, hx.symm⟩
  · rintro ⟨cp, hcp, hinc, kd, hkd, hx⟩
    exact ⟨cp, ⟨hcp, hinc⟩, kd, hkd, hx.symm⟩

theorem listIsPrefix_iff (p s : List Char) :
    listIsPrefix p s = true ↔ ∃ r, s = p ++ r := by
  induction p generalizing s with
  | nil =>
    simp only [listIsPrefix, List.nil_append]
    constructor
    · intro _
      exact ⟨s, rfl⟩
    · intro _
      exact trivial
  | cons a as ih =>
    cases s with
    | nil =>
      simp only [listIsPrefix]
      constructor
      · intro h; cases h
      · rintro ⟨r, hr⟩; cases hr
    | cons b bs =>
      simp only [listIsPrefix, Bool.and_eq_true, decide_eq_true_eq, List.cons_append,
        List.cons.injEq]
      constructor
      · rintro ⟨hab, hpre⟩
        obtain ⟨r, hr⟩ := (ih bs).mp hpre
        exact ⟨r, hab.symm, hr⟩
      · rintro ⟨r, hab, hr⟩
        exact ⟨hab.symm, (ih bs).mpr ⟨r, hr⟩⟩

theorem strStartsWith_iff (s p : String) :
    strStartsWith s p = true ↔ ∃ r : String, s = p ++ r := by
  unfold strStartsWith
  rw [listIsPrefix_iff]
  constructor
  · rintro ⟨r, hr⟩
    refine ⟨⟨r⟩, ?_⟩
    cases s with
    | mk sdata =>
      cases p with
      | mk pdata =>
        show String.mk sdata = String.mk (pdata ++ r)
        exact congrArg String.mk hr
  · rintro ⟨r, hr⟩
    refine ⟨r.data, ?_⟩
    subst hr
    cases p with
    | mk pdata =>
      cases r with
      | mk rdata => rfl

theorem shouldInclude_true_iff (t c : String) :
    shouldInclude t true c = true ↔ (c = t ∨ ∃ rest, c = t ++ "/" ++ rest) := by
  simp [shouldInclude, strStartsWith_iff]

theorem shouldInclude_false_iff (t c : String) :
    shouldInclude t false c = true ↔ c = t := by
  simp [shouldInclude]

/-! ### Claim C8: directory-scoped queries respect path boundaries -/

/-- C8: a record of partition `c` appears in the subdirectory-inclusive
query exactly when `c` equals the current directory or extends it past a
`/` boundary (`c = currentCwd ++ "/" ++ rest`); with
`includeSubdirectories = false`, exactly when `c` equals the current
directory.  (The injectivity hypothesis pins down which partition the
composite key `c ++ "::" ++ k` can come from.) -/
theorem getAllProcessesInDirectory_inclusion (st : ManagerState)
    (c k : String) (d : ProcessData) (p : Partition)
    (hc : (c, p) ∈ st.store) (hk : (k, d) ∈ p)
    (hinj : ∀ c2 p2 k2 d2, (c2, p2) ∈ st.store → (k2, d2) ∈ p2 →
      c2 ++ "::" ++ k2 = c ++ "::" ++ k → c2 = c ∧ k2 = k) :
    ((c ++ "::" ++ k, d) ∈ getAllProcessesInDirectory st true ↔
      (c = st.currentCwd ∨ ∃ rest, c = st.currentCwd ++ "/" ++ rest)) ∧
    ((c ++ "::" ++ k, d) ∈ getAllProcessesInDirectory st false ↔
      c = st.currentCwd) := by
  constructor
  · rw [mem_getAllProcessesInDirectory_iff]
    constructor
    · rintro ⟨cp, hcp, hinc, kd, hkd, hx⟩
      rw [Prod.mk.injEq] at hx
      obtain ⟨hcc, _⟩ := hinj cp.1 cp.2 kd.1 kd.2 hcp hkd hx.1.symm
      rw [← hcc]
      exact (shouldInclude_true_iff st.currentCwd cp.1).mp hinc
    · intro hcond
      exact ⟨(c, p), hc,
        (shouldInclude_true_iff st.currentCwd c).mpr hcond, (k, d), hk, rfl⟩
  · rw [mem_getAllProcessesInDirectory_iff]
    constructor
    · rintro ⟨cp, hcp, hinc, kd, hkd, hx⟩
      rw [Prod.mk.injEq] at hx
      obtain ⟨hcc, _⟩ := hinj cp.1 cp.2 kd.1 kd.2 hcp hkd hx.1.symm
      rw [← hcc]
      exact (shouldInclude_false_iff st.currentCwd cp.1).mp hinc
    · intro hcond
      exact ⟨(c, p), hc,
        (shouldInclude_false_iff st.currentCwd c).mpr hcond, (k, d), hk, rfl⟩

def c8SubData : ProcessData :=
  { pid := 41, command := "a", cwd := "/a/b", status := ProcessStatus.running,
    startTime := 0, autoShutdown := true,
    logFile := some "/logs/process_41.log", errorOutput := none }

def c8SiblingData : ProcessData :=
  { pid := 42, command := "b", cwd := "/ab", status := ProcessStatus.running,
    startTime := 0, autoShutdown := true,
    logFile := some "/logs/process_42.log", errorOutput := none }

def c8State : ManagerState :=
  { store := [("/a/b", [("x", c8SubData)]), ("/ab", [("y", c8SiblingData)])],
    runningProcesses := [], currentCwd := "/a" }

/-- C8 witness: with current directory "/a", the record of partition
"/a/b" is included by the subdirectory query (via rest = "b"), the record
of partition "/ab" is not, and with `includeSubdirectories = false` even
"/a/b" is excluded. -/
theorem getAllProcessesInDirectory_inclusion_witness :
    ("/a/b" ++ "::" ++ "x", c8SubData) ∈ getAllProcessesInDirectory c8State true ∧
    ("/ab" ++ "::" ++ "y", c8SiblingData) ∉ getAllProcessesInDirectory c8State true ∧
    ("/a/b" ++ "::" ++ "x", c8SubData) ∉ getAllProcessesInDirectory c8State false := by
  have h := getAllProcessesInDirectory_inclusion c8State "/a/b" "x" c8SubData
    [("x", c8SubData)]
    (by simp [c8State])
    (by simp)
    (by
      intro c2 p2 k2 d2 h1 h2 h3
      simp only [c8State, List.mem_cons, List.not_mem_nil, or_false,
        Prod.mk.injEq] at h1
      rcases h1 with ⟨rfl, rfl⟩ | ⟨rfl, rfl⟩
      · simp only [List.mem_cons, List.not_mem_nil, or_false, Prod.mk.injEq] at h2
        obtain ⟨rfl, rfl⟩ := h2
        exact ⟨rfl, rfl⟩
      · simp only [List.mem_cons, List.not_mem_nil, or_false, Prod.mk.injEq] at h2
        obtain ⟨rfl, rfl⟩ := h2
        exact absurd h3 (by decide))
  refine ⟨h.1.mpr (Or.inr ⟨"b", by decide⟩), ?_, ?_⟩
  · decide
  · intro hmem
    have := h.2.mp hmem
    exact absurd this (by decide)

/-! ### `getProcessLogs` -/

/-- JS truthiness of the optional `logFile` field: absent or the empty
string are falsy. -/
def logTruthy : Option String → Bool
  | some f => f ≠ ""
  | none => false

/-- The search loop of `getProcessLogs`: take the first entry of the
composite map whose pid matches and whose `logFile` is truthy
(`data.pid === pid && data.logFile`). -/
def findLogFileIn : List (String × ProcessData) → Nat → Option String
  | [], _ => none
  | (_, d) :: rest, pid =>
    if d.pid = pid ∧ logTruthy d.logFile = true then d.logFile
    else findLogFileIn rest pid

/-- JS `arr.slice(-n)` for a natural `n`: `-0` is `+0`, so `n = 0` yields
the whole array; otherwise the last `min n len` elements. -/
def jsSliceNeg {α : Type} (n : Nat) (xs : List α) : List α :=
  if n = 0 then xs else xs.drop (xs.length - n)

/-- `ProcessManager.getProcessLogs(pid, tailLength = 100)`.  The file
system is an oracle: `fsExists` models `existsSync`, `fsRead` models
`readFile` (`Except.error` being a thrown read error). -/
def getProcessLogs (fsExists : String → Bool)
    (fsRead : String → Except String String) (st : ManagerState) (pid : Nat)
    (tailLength : Nat) : String :=
  match findLogFileIn (getAllProcesses st) pid with
  | none => "No logs available for this process"
  | some logFile =>
    if fsExists logFile = false then "No logs available for this process"
    else
      match fsRead logFile with
      | Except.error e => "Error reading logs: " ++ e
      | Except.ok content =>
        let lines := (strSplitOnChar content '\n').filter (fun l => l ≠ "")
        joinSep "\n" (jsSliceNeg tailLength lines)

/-- Modelled from the claim's words: the last `n` non-empty lines of
`content`, in original order, joined by newline. -/
def lastLinesSpec (content : String) (n : Nat) : String :=
  let lines := (strSplitOnChar content '\n').filter (fun l => l ≠ "")
  joinSep "\n" (lines.drop (lines.length - n))

theorem findLogFileIn_unique {l : List (String × ProcessData)} {pid : Nat}
    {d : ProcessData} {f : String}
    (hmem : ∃ ck, (ck, d) ∈ l) (hlog : d.logFile = some f) (hf : f ≠ "")
    (hpid : d.pid = pid)
    (hall : ∀ e ∈ l, e.2.pid = pid → e.2 = d) :
    findLogFileIn l pid = some f := by
  induction l with
  | nil =>
    obtain ⟨ck, hck⟩ := hmem
    cases hck
  | cons e rest ih =>
    rcases e with ⟨ck1, d1⟩
    by_cases hcond : d1.pid = pid ∧ logTruthy d1.logFile = true
    · have hd1 : d1 = d := hall (ck1, d1) (List.mem_cons_self _ _) hcond.1
      simp only [findLogFileIn, if_pos hcond]
      rw [hd1, hlog]
    · simp only [findLogFileIn, if_neg hcond]
      have hmem2 : ∃ ck, (ck, d) ∈ rest := by
        obtain ⟨ck, hck⟩ := hmem
        rcases List.mem_cons.mp hck with h | h
        · rw [Prod.mk.injEq] at h
          obtain ⟨h1, h2⟩ := h
          subst h2
          refine absurd ⟨hpid, ?_⟩ hcond
          rw [hlog]
          simpa [logTruthy] using hf
        · exact ⟨ck, h⟩
      exact ih hmem2 (fun e he hpe => hall e (List.mem_cons_of_mem _ he) hpe)

/-! ### Claim C7: tail semantics of `getProcessLogs` -/

def c7Data : ProcessData :=
  { pid := 7, command := "srv", cwd := "/a", status := ProcessStatus.running,
    startTime := 0, autoShutdown := true,
    logFile := some "/logs/process_7.log", errorOutput := none }

def c7State : ManagerState :=
  { store := [("/a", [("k", c7Data)])], runningProcesses := [7],
    currentCwd := "/a" }

def c7Content : String := "L1\nL2\nL3\nL4\nL5\nL6\nL7\nL8\nL9\nL10\n"

def c7Exists : String → Bool := fun f => f == "/logs/process_7.log"

def c7Read : String → Except String String := fun f =>
  if f = "/logs/process_7.log" then Except.ok c7Content
  else Except.error "ENOENT: no such file"

/-- C7 counterexample: at `maxLines = 0`, JS `slice(-0)` equals `slice(0)`,
so `getProcessLogs` returns ALL ten non-empty lines, whereas the last 0
non-empty lines joined by newline is the empty string — the claim's
universally stated tail behaviour fails at 0. -/
theorem getProcessLogs_zero_slice_mismatch :
    getProcessLogs c7Exists c7Read c7State 7 0 =
      "L1\nL2\nL3\nL4\nL5\nL6\nL7\nL8\nL9\nL10" ∧
    lastLinesSpec c7Content 0 = "" ∧
    ("L1\nL2\nL3\nL4\nL5\nL6\nL7\nL8\nL9\nL10" : String) ≠ "" := by
  refine ⟨rfl, rfl, by decide⟩

/-- C7 (amended): for `maxLines ≥ 1`, when the registry holds exactly one
record for `pid` and it has a truthy, existing, readable log file,
`getProcessLogs` returns the last `maxLines` non-empty lines of the file
content, in original order, joined by newline.  (At `maxLines = 0` the code
instead returns every non-empty line, because `slice(-0)` is `slice(0)`.) -/
theorem getProcessLogs_tail (fsExists : String → Bool)
    (fsRead : String → Except String String) (st : ManagerState) (pid n : Nat)
    (c k : String) (d : ProcessData) (p : Partition) (f content : String)
    (hc : (c, p) ∈ st.store) (hk : (k, d) ∈ p) (hpid : d.pid = pid)
    (hlog : d.logFile = some f) (hf : f ≠ "")
    (huniq : ∀ c2 p2 k2 d2, (c2, p2) ∈ st.store → (k2, d2) ∈ p2 →
      d2.pid = pid → d2 = d)
    (hex : fsExists f = true) (hread : fsRead f = Except.ok content)
    (hn : 1 ≤ n) :
    getProcessLogs fsExists fsRead st pid n = lastLinesSpec content n := by
  have hmem : ∃ ck, (ck, d) ∈ getAllProcesses st := by
    refine ⟨c ++ "::" ++ k, ?_⟩
    rw [mem_getAllProcesses_iff]
    exact ⟨(c, p), hc, (k, d), hk, rfl⟩
  have hall : ∀ e ∈ getAllProcesses st, e.2.pid = pid → e.2 = d := by
    intro e he hpe
    rw [mem_getAllProcesses_iff] at he
    obtain ⟨cp, hcp, kd, hkd, hx⟩ := he
    have : e.2 = kd.2 := by rw [hx]
    rw [this] at hpe ⊢
    exact huniq cp.1 cp.2 kd.1 kd.2 hcp hkd hpe
  have hfind : findLogFileIn (getAllProcesses st) pid = some f :=
    findLogFileIn_unique hmem hlog hf hpid hall
  have hL : ∀ L : List String, jsSliceNeg n L = L.drop (L.length - n) := by
    intro L
    unfold jsSliceNeg
    rw [if_neg (by omega)]
  unfold getProcessLogs
  rw [hfind]
  dsimp only
  rw [if_neg (by simp [hex])]
  rw [hread]
  show joinSep "\n"
      (jsSliceNeg n ((strSplitOnChar content '\n').filter (fun l => l ≠ ""))) =
    lastLinesSpec content n
  rw [hL]
  rfl

/-- C7 witness: the claim's own example — content `L1..L10`, each on its
own line, with `maxLines = 5` — yields exactly `"L6\nL7\nL8\nL9\nL10"`. -/
theorem getProcessLogs_tail_witness :
    getProcessLogs c7Exists c7Read c7State 7 5 = lastLinesSpec c7Content 5 ∧
    lastLinesSpec c7Content 5 = "L6\nL7\nL8\nL9\nL10" := by
  constructor
  · exact getProcessLogs_tail c7Exists c7Read c7State 7 5 "/a" "k" c7Data
      [("k", c7Data)] "/logs/process_7.log" c7Content
      (by simp [c7State])
      (by simp)
      rfl
      rfl
      (by decide)
      (by
        intro c2 p2 k2 d2 h1 h2 h3
        simp only [c7State, List.mem_cons, List.not_mem_nil, or_false,
          Prod.mk.injEq] at h1
        obtain ⟨rfl, rfl⟩ := h1
        simp only [List.mem_cons, List.not_mem_nil, or_false, Prod.mk.injEq] at h2
        obtain ⟨rfl, rfl⟩ := h2
        rfl)
      (by decide)
      (by rfl)
      (by omega)
  · rfl

end PM
